import Mathlib

/-!
Verification development for the adbs build orchestrator.

Shallow embedding of the core resolution, dependency-query,
topological-leveling, build-orchestration and artifact-checking code of
the repository (src/adbs/utils.py, src/adbs/builder.py,
src/adbs/downloader.py), together with theorems settling the frozen
claims about it.

Conventions used throughout:
* Python lists/tuples are Lean lists; SQL tables are lists of rows.
* Python dictionaries are association lists whose key column is Nodup.
* Exceptions are `Except` values carrying the message (or error record)
  that the Python code would raise.
* External collaborators that the code consumes as opaque predicates
  (the dpkg version comparator loaded from mod_vercomp.so, hash
  functions) are parameters of the embedded functions.
-/

namespace Adbs

/-! ## utils.py -/

/-- Embedding of `utils.uniq` (src/adbs/utils.py lines 142-151):
`seen = set(); return [x for x in seq if x not in seen and not seen.add(x)]`.
The running `seen` set is the extra accumulator argument; an element is
emitted exactly when it is not in `seen`, and is then added to `seen`. -/
def uniq_aux {α : Type} [DecidableEq α] (seen : List α) : List α → List α
  | [] => []
  | x :: xs => if x ∈ seen then uniq_aux seen xs else x :: uniq_aux (x :: seen) xs

/-- Embedding of `utils.uniq`: order-preserving de-duplicator. -/
def uniq {α : Type} [DecidableEq α] (seq : List α) : List α :=
  uniq_aux [] seq

/-! ## builder.py : PackageBuilder.new_build_thread (lines 357-385)

`new_build_thread` iterates over the unmet sibling dependencies.  For each
one it creates a fresh `Process`, starts it and immediately `join`s it
(so exactly one sub-build runs at a time), then inspects the shared
`Event`; the slave sets the event whenever its build raises.  If the
event is set, an `ACBSGeneralError` naming the just-joined dependency is
raised and no further sibling is started.

The embedding abstracts one sub-build by the predicate
`fails : String → Bool` (does the isolated sub-build of this package
set the shared error event?).  `run_subbuilds` threads the event state
(a set-once boolean) and returns the list of siblings actually started,
in start order, together with the dependency named by the raised error,
if any. -/

def run_subbuilds (fails : String → Bool) : List String → Bool → List String × Option String
  | [], _ => ([], none)
  | p :: rest, ev =>
    let ev2 := ev || fails p
    if ev2 then ([p], some p)
    else
      let r := run_subbuilds fails rest ev2
      (p :: r.1, r.2)

/-- Embedding of `PackageBuilder.new_build_thread`: the shared error
event starts cleared (`self.shared_error = Event()`), then the siblings
are processed sequentially. -/
def new_build_thread (fails : String → Bool) (try_build : List String) :
    List String × Option String :=
  run_subbuilds fails try_build false

/-! ## builder.py : PackageBuilder.build_main (lines 307-322)

The dependency-handling portion of `build_main`: given the computed
unmet dependencies `try_build` and the pending chain of in-flight
ancestor builds `self.pending`, the code raises
`ACBSGeneralError('Dependency loop: %s' % '<->'.join(self.pending))`
when `set(try_build).intersection(self.pending)` is non-empty, and
otherwise runs `new_build_thread`, which raises an error naming the
failed dependency when the shared error event was set. -/

/-- The message of the dependency-loop error raised by `build_main`:
`'Dependency loop: %s' % '<->'.join(self.pending)`. -/
def dependency_loop_msg (pending : List String) : String :=
  "Dependency loop: " ++ String.intercalate "<->" pending

/-- Embedding of `utils.format_packages` (utils.py lines 391-392). -/
def format_packages (p : String) : String :=
  "\x1b[36m" ++ p ++ "\x1b[0m"

/-- The message of the error raised after a failed sub-build
(builder.py lines 382-385). -/
def subbuild_failed_msg (p : String) : String :=
  "Sub-build process building " ++ format_packages p ++ " \x1b[93mfailed!\x1b[0m"

/-- Embedding of the dependency-handling part of
`PackageBuilder.build_main` (builder.py lines 311-322), for a non-skip
build.  Returns the list of sub-builds started (in start order) and
either `.ok ()` or `.error msg` for the raised exception. -/
def build_main_deps (pending : List String) (try_build : List String)
    (fails : String → Bool) : List String × Except String Unit :=
  if try_build.isEmpty then ([], .ok ())
  else if try_build.any (fun d => pending.contains d) then
    ([], .error (dependency_loop_msg pending))
  else
    match new_build_thread fails try_build with
    | (started, some p) => (started, .error (subbuild_failed_msg p))
    | (started, none) => (started, .ok ())

/-! ## Python string primitives

The Lean core string operations backing `splitOn`, `startsWith` and
`trim` are defined by well-founded recursion and do not reduce in the
kernel, so the Python string operations the source uses are embedded
here directly over `String.data` (structural recursion, kernel
computable), with Python semantics. -/

/-- Split at the first occurrence of `c`: `none` when `c` does not
occur, otherwise the parts before and after the first occurrence. -/
def break1 (c : Char) : List Char → Option (List Char × List Char)
  | [] => none
  | x :: xs =>
    if x == c then some ([], xs)
    else (break1 c xs).map (fun p => (x :: p.1, p.2))

/-- Python `s.split(c, 1)`: one element when `c` does not occur in `s`,
otherwise the two parts around the first occurrence. -/
def pySplit1 (c : Char) (s : String) : List String :=
  match break1 c s.data with
  | none => [s]
  | some (a, b) => [String.mk a, String.mk b]

/-- Python `s.startswith(pre)` on character lists (first argument the
string, second the candidate leading part). -/
def listStartsWith : List Char → List Char → Bool
  | _, [] => true
  | [], _ :: _ => false
  | a :: as, b :: bs => a == b && listStartsWith as bs

/-- Python `s.startswith(pre)`. -/
def pyStartsWith (s pre : String) : Bool :=
  listStartsWith s.data pre.data

/-- Python `s.strip()`: remove leading and trailing whitespace. -/
def pyStrip (s : String) : String :=
  String.mk (((s.data.dropWhile Char.isWhitespace).reverse.dropWhile
    Char.isWhitespace).reverse)

/-- Helper for Python `s.split('::')`: greedy left-to-right scan. -/
def splitOnColonsAux : List Char → List Char → List (List Char)
  | acc, ':' :: ':' :: rest => acc.reverse :: splitOnColonsAux [] rest
  | acc, c :: rest => splitOnColonsAux (c :: acc) rest
  | acc, [] => [acc.reverse]

/-- Python `s.split('::')`. -/
def pySplitColons (s : String) : List String :=
  (splitOnColonsAux [] s.data).map String.mk

/-! ## builder.py : SuiteBuildRecipe.find_package (lines 102-133)

A `packages` table row; `category` is nullable in the database. The
field `section` is a Lean keyword, hence `section_`. -/

structure PkgRow where
  category : Option String
  section_ : String
  directory : String
deriving DecidableEq, Repr

/-- The `src_name` expression the query selects:
`coalesce(category || '-', '') || section || '/' || directory`. -/
def render_src_name (r : PkgRow) : String :=
  (match r.category with
   | some c => c ++ "-"
   | none => "") ++ r.section_ ++ "/" ++ r.directory

/-- Embedding of the parsing prologue of `find_package` (lines 104-113).
`abbs_categories` comes from the external `abbsmeta` module and is a
parameter.  Mirrors `name.split('/', 1)` and, when the prefix starts
with a known category prefix, `secpath.split('-', 1)`; an impossible
tuple unpacking (a matching prefix without a dash) is a Python
`ValueError`, embedded as `.error`. -/
def parse_name (cats : List String) (name : String) :
    Except String (Option String × Option String × String) :=
  match pySplit1 '/' name with
  | [d] => .ok (none, none, d)
  | [secpath, directory] =>
    if cats.any (fun x => pyStartsWith secpath x) then
      match pySplit1 '-' secpath with
      | [c, s] => .ok (some c, some s, directory)
      | _ => .error "ValueError: not enough values to unpack"
    else .ok (none, some secpath, directory)
  | _ => .error "unreachable: split(sep, 1) gives one or two parts"

/-- The WHERE clause of the query in `find_package` (lines 114-128):
`directory=?` always; `AND section=?` only when `section` is truthy
(non-None and non-empty); `AND category=?` only when `category` is
truthy.  `category=?` on a NULL column never matches. -/
def row_matches (cat? sec? : Option String) (dir : String) (r : PkgRow) : Bool :=
  r.directory == dir
  && (match sec? with
      | none => true
      | some s => s == "" || r.section_ == s)
  && (match cat? with
      | none => true
      | some c => c == "" || r.category == some c)

/-- Embedding of `SuiteBuildRecipe.find_package` (builder.py lines
102-133).  `store` is the `packages` table; `cur.fetchone()` is the
first matching row.  On a miss the input resolves to a group when the
parsed section is the reserved marker `'groups'`, or when no section
was supplied and `try_group` holds; otherwise the original input is
reported verbatim in a `ValueError`. -/
def find_package (cats : List String) (store : List PkgRow) (name : String)
    (try_group : Bool) : Except String (String × Bool) :=
  match parse_name cats name with
  | .error e => .error e
  | .ok (cat?, sec?, dir) =>
    match store.find? (row_matches cat? sec? dir) with
    | some r => .ok (render_src_name r, false)
    | none =>
      if sec? == some "groups" || (try_group && sec?.isNone) then .ok (dir, true)
      else .error ("source package " ++ name ++ " not found")

/-! ## builder.py : SuiteBuildRecipe.find_packages (lines 135-155)

`find_packages` first resolves every input name (packages collected in
input order, groups collected in input order), then walks the groups:
a group already on `group_path` is a dependency loop
(`'group dependency loop found: %s -> %s' % (group_path, group)`, where
the `%s` of the tuple is its Python `str`), otherwise the group file is
read, each line is `strip()`ped (no blank/comment filtering in the
source), and `find_packages` recurses with the path extended, the
expansion being appended after the direct packages.

Line 148 of the source computes the group file path from an undefined
variable `directory` (a NameError at runtime); the group file is
Modelled from the spec here: "a plain ordered list of names ...
addressed by group name under a conventional tree location", i.e. the
file for group `g` is looked up under the name `g` in `fs`.

The source recursion has no explicit bound; the embedding threads a
`fuel` counter that is decremented at every recursive step, so that any
execution of the source is reproduced by the embedding for every
sufficiently large fuel. -/

/-- A single quote character, used by the Python `str` of a tuple. -/
def squote : String := String.singleton (Char.ofNat 39)

/-- Python `repr` of a string without escapes: `'s'`. -/
def pyStrRepr (s : String) : String := squote ++ s ++ squote

/-- Python `str` of a tuple of strings: `()`, `('a',)`, `('a', 'b')`. -/
def pyTupleRepr : List String → String
  | [] => "()"
  | [s] => "(" ++ pyStrRepr s ++ ",)"
  | ss => "(" ++ String.intercalate ", " (ss.map pyStrRepr) ++ ")"

/-- The message of the group-cycle error (builder.py lines 146-147). -/
def group_loop_msg (group_path : List String) (group : String) : String :=
  "group dependency loop found: " ++ pyTupleRepr group_path ++ " -> " ++ group

/-- The first loop of `find_packages` (lines 138-143): resolve every
name, partitioning results into `src_packages` and `groups`, both in
input order; the first `find_package` failure propagates. -/
def resolve_split (cats : List String) (store : List PkgRow) (try_group : Bool) :
    List String → Except String (List String × List String)
  | [] => .ok ([], [])
  | n :: rest =>
    match find_package cats store n try_group with
    | .error e => .error e
    | .ok (r, isg) =>
      match resolve_split cats store try_group rest with
      | .error e => .error e
      | .ok (ps, gs) => if isg then .ok (ps, r :: gs) else .ok (r :: ps, gs)

/-- Lookup of a group definition file: `os.path.isfile` plus reading
the lines (without their newlines). -/
def lookup_group (fs : List (String × List String)) (g : String) :
    Option (List String) :=
  (fs.find? (fun q => q.1 == g)).map (fun q => q.2)

mutual

/-- Embedding of `SuiteBuildRecipe.find_packages` (builder.py lines
135-155); see the section comment above. -/
def find_packages (fuel : Nat) (cats : List String) (store : List PkgRow)
    (fs : List (String × List String)) (names : List String)
    (group_path : List String) : Except String (List String) :=
  match fuel with
  | 0 => .error "recursion limit"
  | fuel' + 1 =>
    match resolve_split cats store group_path.isEmpty names with
    | .error e => .error e
    | .ok (pkgs, groups) =>
      match expand_groups fuel' cats store fs group_path groups with
      | .error e => .error e
      | .ok exps => .ok (pkgs ++ exps)

/-- The second loop of `find_packages` (lines 144-154): for each
collected group, in order, first the cycle check against `group_path`,
then the group-file lookup (not-found error when the file is missing),
then the recursion on the stripped lines with the path extended. -/
def expand_groups (fuel : Nat) (cats : List String) (store : List PkgRow)
    (fs : List (String × List String)) (group_path : List String) :
    List String → Except String (List String)
  | [] => .ok []
  | g :: gs =>
    match fuel with
    | 0 => .error "recursion limit"
    | fuel' + 1 =>
      if group_path.contains g then
        .error (group_loop_msg group_path g)
      else
        match lookup_group fs g with
        | some lines =>
          match find_packages fuel' cats store fs (lines.map pyStrip)
              (group_path ++ [g]) with
          | .error e => .error e
          | .ok sub =>
            match expand_groups fuel' cats store fs group_path gs with
            | .error e => .error e
            | .ok more => .ok (sub ++ more)
        | none => .error ("source package " ++ g ++ " not found")

end

/-! ## builder.py : SuiteBuildRecipe.install_deps (lines 157-166)

The dependency query:
```
SELECT d.package, d.dependency
FROM package_dependencies d
INNER JOIN v_packages v2 ON v2.name=d.dependency
AND compare_dpkgrel(v2.full_version, d.relop, d.version)
WHERE d.relationship IN ('PKGDEP', 'BUILDDEP') AND d.package!=d.dependency
```
`compare_dpkgrel` is the opaque version predicate loaded from
`mod_vercomp.so` and is a parameter.  The select produces one output
row per `(d, v2)` pair satisfying both the join condition and the
WHERE clause. -/

/-- A `package_dependencies` row. -/
structure DepRow where
  package : String
  dependency : String
  relationship : String
  relop : String
  version : String
deriving DecidableEq, Repr

/-- A `v_packages` row: a package name and its best currently-available
version (`full_version`). -/
structure VPkgRow where
  name : String
  full_version : String
deriving DecidableEq, Repr

/-- Embedding of the query in `SuiteBuildRecipe.install_deps`. -/
def install_deps (cmp : String → String → String → Bool)
    (deps : List DepRow) (vpkgs : List VPkgRow) : List (String × String) :=
  deps.flatMap (fun d =>
    if (d.relationship == "PKGDEP" || d.relationship == "BUILDDEP")
        && d.package != d.dependency then
      (vpkgs.filter
        (fun v => v.name == d.dependency && cmp v.full_version d.relop d.version)).map
        (fun _ => (d.package, d.dependency))
    else [])

/-! ## downloader.py : fetch_src, tarball handling (lines 251-337)

For a tarball source the relevant file-system state is the downloaded
artifact `fname` and the failure marker `fname + '.failed'`.  File
contents are abstract (`α`); the checksum of a file is computed by the
parameter `hashf hash_type contents`.

* Lines 262-267 (run prologue): when the `.failed` marker exists, both
  the marker and the artifact are removed, forcing a refetch.
* Lines 308-331 (post-download validation): a missing artifact is a
  `BuildProcessError` 201; a missing `CHKSUM` declaration is a
  `MetadataError` 113 and touches the marker; `CHKSUM` is split on
  `'::'` into hash type and declared value (any other shape is an
  uncaught Python ValueError); a digest mismatch is a
  `BuildProcessError` 201 — `'tarball checksum mismatch. fix:
  CHKSUM=%s::%s'` — and touches the marker. -/

/-- The error classes of utils.py lines 14-43 that fetch_src uses. -/
inductive ErrKind
  | MetadataError
  | BuildProcessError
  | BuildResultError
  | DependencyError
deriving DecidableEq, Repr

/-- A raised `BuildError`: subclass, numeric code, message. -/
structure BErr where
  kind : ErrKind
  code : Nat
  message : String
deriving DecidableEq, Repr

/-- Per-tarball file-system state. -/
structure TarballState (α : Type) where
  file : Option α
  failedMarker : Bool
deriving DecidableEq, Repr

/-- Outcome of the per-tarball validation in `fetch_src`. -/
inductive FetchResult
  | ok
  | err (e : BErr)
  | pyError (msg : String)
deriving DecidableEq, Repr

/-- Embedding of the prologue at downloader.py lines 262-267: if
`fname + '.failed'` exists, remove it and remove `fname`. -/
def fetch_pre {α : Type} (s : TarballState α) : TarballState α :=
  if s.failedMarker then { file := none, failedMarker := false } else s

/-- The downloader step: when the batch downloader obtained contents
`d`, the artifact now holds `d`; when it failed, the file state is
unchanged. -/
def fetch_download {α : Type} (downloaded : Option α) (s : TarballState α) :
    TarballState α :=
  match downloaded with
  | some d => { s with file := some d }
  | none => s

/-- Embedding of the tarball validation at downloader.py lines
308-331. -/
def check_tarball {α : Type} (hashf : String → α → String)
    (chksum_spec : Option String) (s : TarballState α) :
    TarballState α × FetchResult :=
  match s.file with
  | none => (s, .err ⟨.BuildProcessError, 201, "failed to get tarball"⟩)
  | some content =>
    match chksum_spec with
    | none =>
      let target := hashf "sha256" content
      ({ s with failedMarker := true },
        .err ⟨.MetadataError, 113,
          "no checksum found for tarball. fix: CHKSUM=sha256::" ++ target⟩)
    | some spec =>
      match pySplitColons spec with
      | [htype, hvalue] =>
        let target := hashf htype content
        if hvalue == target then (s, .ok)
        else
          ({ s with failedMarker := true },
            .err ⟨.BuildProcessError, 201,
              "tarball checksum mismatch. fix: CHKSUM=" ++ htype ++ "::" ++ target⟩)
      | _ => (s, .pyError "ValueError: split on :: did not give two values")

/-- One run of `fetch_src` for a single tarball package: prologue,
download, validation. -/
def fetch_run {α : Type} (hashf : String → α → String)
    (chksum_spec : Option String) (downloaded : Option α)
    (s : TarballState α) : TarballState α × FetchResult :=
  check_tarball hashf chksum_spec (fetch_download downloaded (fetch_pre s))

/-! ## utils.toposort

`builder.py` lines 175-180 iterate `utils.toposort(res)` over a
`node → prerequisite-set` mapping and catch
`utils.CircularDependencyError`, whose `data` attribute carries the
remaining mapping; but `utils.py` in src/ contains neither definition.

Modelled from the spec: `utils.toposort`, the Topological Leveler of
spec section 4.3 — "repeat: collect all nodes whose remaining
prerequisite set is empty; if none and nodes remain, the remaining
mapping is a cycle: fail with a structured error carrying the remaining
mapping ...  Otherwise sort the collected nodes deterministically
(lexicographic on identifier) and yield them as the next level; remove
them from the prerequisite sets of all remaining nodes; continue until
no nodes remain", with "prerequisites outside the node set ... treated
as already satisfied and ignored".

The mapping is an association list with distinct keys; a node is ready
when none of its prerequisites is a key of the remaining mapping (which
ignores outside prerequisites and treats yielded nodes as removed from
all prerequisite sets at once). -/

/-- A `node → prerequisite set` mapping. -/
abbrev Graph := List (String × List String)

/-- The node set of the mapping. -/
def keys (g : Graph) : List String := g.map Prod.fst

/-- A node is ready when its remaining prerequisite set is empty:
every declared prerequisite is outside the remaining node set. -/
def isReady (g : Graph) (p : String × List String) : Bool :=
  p.2.all (fun b => !(keys g).contains b)

/-- Lexicographic comparison of characters by code point. -/
def charLe (a b : Char) : Bool := a.toNat ≤ b.toNat

/-- Lexicographic comparison of character lists. -/
def lexLe : List Char → List Char → Bool
  | [], _ => true
  | _ :: _, [] => false
  | a :: as, b :: bs => if a == b then lexLe as bs else charLe a b

/-- Lexicographic comparison of identifiers. -/
def strLe (a b : String) : Bool := lexLe a.data b.data

/-- Insertion into a sorted list (kernel-computable sorting). -/
def insertStr (a : String) : List String → List String
  | [] => [a]
  | b :: bs => if strLe a b then a :: b :: bs else b :: insertStr a bs

/-- Deterministic lexicographic sort of a level. -/
def sortStr (l : List String) : List String := l.foldr insertStr []

/-- Modelled from the spec: `utils.toposort` (see the section comment).
Returns the list of levels, or, on a cycle, the remaining mapping (the
`data` of `CircularDependencyError`). -/
def toposort (g : Graph) : Except Graph (List (List String)) :=
  if g.isEmpty then .ok []
  else if hr : (g.filter (isReady g)).isEmpty then .error g
  else
    match toposort (g.filter (fun p => !isReady g p)) with
    | .error e => .error e
    | .ok ls => .ok (sortStr ((g.filter (isReady g)).map Prod.fst) :: ls)
termination_by g.length
decreasing_by
  have hex : ∃ x ∈ g, isReady g x = true := by
    rcases List.exists_mem_of_ne_nil (g.filter (isReady g))
      (by simpa [List.isEmpty_iff] using hr) with ⟨x, hx⟩
    exact ⟨x, List.mem_of_mem_filter hx, (List.mem_filter.mp hx).2⟩
  simpa [List.length_filter_lt_length_iff_exists] using hex

/-- The index of the level containing `x` (the first level whose list
contains `x`). -/
def levelIdx (ls : List (List String)) (x : String) : Nat :=
  ls.findIdx (fun l => l.contains x)

/-- The dependency relation of a mapping: `edgeP g a b` holds when the
entry of node `a` declares `b` as a prerequisite. -/
def edgeP (g : Graph) (a b : String) : Prop :=
  ∃ pr, (a, pr) ∈ g ∧ b ∈ pr

/-! # Theorems -/

/-! ## C10 : utils.uniq -/

lemma mem_uniq_aux {α : Type} [DecidableEq α] (y : α) :
    ∀ (l seen : List α), y ∈ uniq_aux seen l ↔ y ∈ l ∧ y ∉ seen := by
  intro l
  induction l with
  | nil => simp [uniq_aux]
  | cons x xs ih =>
    intro seen
    by_cases hx : x ∈ seen
    · rw [uniq_aux, if_pos hx, ih]
      constructor
      · rintro ⟨h1, h2⟩
        exact ⟨List.mem_cons_of_mem _ h1, h2⟩
      · rintro ⟨h1, h2⟩
        rcases List.mem_cons.mp h1 with rfl | h1
        · exact absurd hx h2
        · exact ⟨h1, h2⟩
    · rw [uniq_aux, if_neg hx, List.mem_cons, ih (x :: seen)]
      constructor
      · rintro (rfl | ⟨h1, h2⟩)
        · exact ⟨List.mem_cons_self _ _, hx⟩
        · exact ⟨List.mem_cons_of_mem _ h1, fun hc => h2 (List.mem_cons_of_mem _ hc)⟩
      · rintro ⟨h1, h2⟩
        rcases List.mem_cons.mp h1 with rfl | h1
        · exact Or.inl rfl
        · by_cases hyx : y = x
          · exact Or.inl hyx
          · refine Or.inr ⟨h1, fun hc => ?_⟩
            rcases List.mem_cons.mp hc with h | h
            · exact hyx h
            · exact h2 h

lemma count_uniq_aux {α : Type} [DecidableEq α] (y : α) :
    ∀ (l seen : List α),
      (uniq_aux seen l).count y = if y ∈ l ∧ y ∉ seen then 1 else 0 := by
  intro l
  induction l with
  | nil => simp [uniq_aux]
  | cons x xs ih =>
    intro seen
    by_cases hx : x ∈ seen
    · rw [uniq_aux, if_pos hx, ih]
      by_cases hyx : y = x
      · subst hyx; simp [hx]
      · simp [hyx]
    · rw [uniq_aux, if_neg hx]
      by_cases hyx : y = x
      · subst hyx
        rw [List.count_cons_self, ih]
        simp [hx]
      · rw [List.count_cons_of_ne hyx, ih]
        simp [hyx]

lemma uniq_aux_sublist {α : Type} [DecidableEq α] :
    ∀ (l seen : List α), (uniq_aux seen l).Sublist l := by
  intro l
  induction l with
  | nil => simp [uniq_aux]
  | cons x xs ih =>
    intro seen
    by_cases hx : x ∈ seen
    · rw [uniq_aux, if_pos hx]
      exact (ih seen).cons x
    · rw [uniq_aux, if_neg hx]
      exact (ih (x :: seen)).cons₂ x

lemma pairwise_indexOf_uniq_aux {α : Type} [DecidableEq α] :
    ∀ (l seen : List α),
      (uniq_aux seen l).Pairwise (fun a b => l.indexOf a < l.indexOf b) := by
  intro l
  induction l with
  | nil => simp [uniq_aux]
  | cons x xs ih =>
    intro seen
    by_cases hx : x ∈ seen
    · rw [uniq_aux, if_pos hx]
      refine ((ih seen).imp_of_mem ?_)
      intro a b ha hb hlt
      have hax : a ≠ x := by
        intro h; subst h
        exact ((mem_uniq_aux a xs seen).mp ha).2 hx
      have hbx : b ≠ x := by
        intro h; subst h
        exact ((mem_uniq_aux b xs seen).mp hb).2 hx
      rw [List.indexOf_cons_ne _ hax.symm, List.indexOf_cons_ne _ hbx.symm]
      omega
    · rw [uniq_aux, if_neg hx]
      refine List.Pairwise.cons ?_ (((ih (x :: seen)).imp_of_mem ?_))
      · intro b hb
        have hbx : b ≠ x := by
          intro h
          apply ((mem_uniq_aux b xs (x :: seen)).mp hb).2
          rw [h]
          exact List.mem_cons_self x seen
        rw [List.indexOf_cons_self, List.indexOf_cons_ne _ hbx.symm]
        omega
      · intro a b ha hb hlt
        have hax : a ≠ x := by
          intro h
          apply ((mem_uniq_aux a xs (x :: seen)).mp ha).2
          rw [h]
          exact List.mem_cons_self x seen
        have hbx : b ≠ x := by
          intro h
          apply ((mem_uniq_aux b xs (x :: seen)).mp hb).2
          rw [h]
          exact List.mem_cons_self x seen
        rw [List.indexOf_cons_ne _ hax.symm, List.indexOf_cons_ne _ hbx.symm]
        omega

lemma uniq_aux_idem {α : Type} [DecidableEq α] :
    ∀ (l seen : List α), uniq_aux seen (uniq_aux seen l) = uniq_aux seen l := by
  intro l
  induction l with
  | nil => simp [uniq_aux]
  | cons x xs ih =>
    intro seen
    by_cases hx : x ∈ seen
    · rw [uniq_aux, if_pos hx, ih]
    · rw [uniq_aux, if_neg hx]
      rw [uniq_aux, if_neg hx, ih]

/-- C10: for every input list, `uniq` returns the subsequence of first
occurrences: every element of the input appears exactly once in the
output (and nothing else appears), the output is a subsequence of the
input ordered by strictly increasing index of first occurrence, and
`uniq` is idempotent. -/
theorem uniq_first_occurrences {α : Type} [DecidableEq α] (l : List α) :
    (∀ x, x ∈ l → (uniq l).count x = 1)
    ∧ (∀ x, x ∈ uniq l ↔ x ∈ l)
    ∧ (uniq l).Sublist l
    ∧ (uniq l).Pairwise (fun a b => l.indexOf a < l.indexOf b)
    ∧ uniq (uniq l) = uniq l := by
  refine ⟨?_, ?_, ?_, ?_, ?_⟩
  · intro x hx
    rw [uniq, count_uniq_aux]
    simp [hx]
  · intro x
    rw [uniq, mem_uniq_aux]
    simp
  · exact uniq_aux_sublist l []
  · exact pairwise_indexOf_uniq_aux l []
  · exact uniq_aux_idem l []

/-- Witness for C10 at a concrete input with a duplicate. -/
theorem uniq_first_occurrences_witness :
    (2 : Nat) ∈ [2, 7, 2, 3] ∧ (uniq [2, 7, 2, 3]).count 2 = 1
    ∧ uniq (uniq [2, 7, 2, 3]) = uniq [2, 7, 2, 3] :=
  ⟨by decide, (uniq_first_occurrences [2, 7, 2, 3]).1 2 (by decide),
    (uniq_first_occurrences [2, 7, 2, 3]).2.2.2.2⟩

/-! ## C2 : new_build_thread failure short-circuit -/

/-- C2: sub-builds run strictly sequentially (the embedding
`run_subbuilds` is the start/join loop of builder.py lines 374-385,
one process at a time), the shared failure signal is inspected after
each join, and once set no further sibling is started: when every
dependency before `p` succeeds and `p` fails, exactly the siblings up
to and including `p` are started and the raised error names `p`. -/
theorem new_build_thread_short_circuit (fails : String → Bool)
    (pre : List String) (p : String) (rest : List String)
    (hpre : ∀ q ∈ pre, fails q = false) (hp : fails p = true) :
    new_build_thread fails (pre ++ p :: rest) = (pre ++ [p], some p) := by
  induction pre with
  | nil => simp [new_build_thread, run_subbuilds, hp]
  | cons q pre ih =>
    have hq : fails q = false := hpre q (List.mem_cons_self _ _)
    have ih' : run_subbuilds fails (pre.append (p :: rest)) false
        = (pre ++ [p], some p) := ih (fun r hr => hpre r (List.mem_cons_of_mem _ hr))
    simp only [new_build_thread, List.cons_append, run_subbuilds, hq,
      Bool.or_false, if_neg (Bool.false_ne_true)]
    rw [ih']

/-- Witness for C2: the spec scenario `[D1, D2, D3]` where `D1` fails:
only `D1` is started, `D2` and `D3` never are, and the error names
`D1`. -/
theorem new_build_thread_short_circuit_witness :
    new_build_thread (fun s => s == "D1") ["D1", "D2", "D3"] = (["D1"], some "D1") :=
  new_build_thread_short_circuit (fun s => s == "D1") [] "D1" ["D2", "D3"]
    (by intro q hq; cases hq) (by decide)

/-! ## C3 : runtime dependency-loop detection in build_main -/

/-- Counterexample for C3 as stated: with pending chain `("X",)` and
current unit `Y` whose unmet dependency is `X`, the raised error is
`'Dependency loop: X'` — the loop member `Y` (the current unit) is not
named: the character `Y` does not occur in the message.  (The message
is `'<->'.join(self.pending)`; only the pending chain is named.) -/
theorem build_main_loop_cex :
    build_main_deps ["X"] ["X"] (fun _ => false)
      = ([], .error "Dependency loop: X")
    ∧ ('Y' ∈ "Dependency loop: X".data → False) := by
  constructor
  · rfl
  · decide

/-- C3 amended: whenever the unmet dependencies intersect the pending
chain, `build_main` raises the fatal dependency-loop error whose
message names the members of the pending chain in chain order (joined
by `<->`); this includes the chain member that closes the loop but not
the current unit; and no sub-build is started (the loop check precedes
`new_build_thread`). -/
theorem build_main_loop_error (pending try_build : List String)
    (fails : String → Bool) (d : String)
    (hd : d ∈ try_build) (hp : d ∈ pending) :
    build_main_deps pending try_build fails
      = ([], .error (dependency_loop_msg pending)) := by
  have hne : try_build.isEmpty = false := by
    cases try_build with
    | nil => cases hd
    | cons a l => rfl
  have hany : try_build.any (fun x => pending.contains x) = true := by
    rw [List.any_eq_true]
    exact ⟨d, hd, by simpa using hp⟩
  rw [build_main_deps, if_neg (by simp [hne]), if_pos hany]

/-- Witness for C3 (amended) at the spec scenario: unit `Y` with unmet
dependency `X`, pending chain `("X",)`. -/
theorem build_main_loop_error_witness :
    build_main_deps ["X"] ["X"] (fun s => s == "Y")
      = ([], .error (dependency_loop_msg ["X"])) :=
  build_main_loop_error ["X"] ["X"] (fun s => s == "Y") "X" (by decide) (by decide)

/-! ## C4 : the install_deps dependency query -/

/-- Counterexample for C4 as stated: the query keeps exactly the pairs
whose available version passes `compare_dpkgrel` (it is the INNER JOIN
condition), not the pairs that fail it.  With a comparator that always
succeeds, the declared pair is returned even though its available
version satisfies the test; with a comparator that always fails, the
pair is not returned. -/
theorem install_deps_cex :
    install_deps (fun _ _ _ => true)
      [⟨"A", "B", "PKGDEP", ">=", "1"⟩] [⟨"B", "2"⟩] = [("A", "B")]
    ∧ install_deps (fun _ _ _ => false)
      [⟨"A", "B", "PKGDEP", ">=", "1"⟩] [⟨"B", "2"⟩] = [] :=
  ⟨rfl, rfl⟩

/-- C4 amended: the dependency query returns exactly the pairs
(package, dependency) whose relationship kind is `PKGDEP` (RUN) or
`BUILDDEP` (BUILD), where package differs from dependency, and where
some row of `v_packages` gives the dependency a currently-available
version that satisfies the declared relational operator/version test;
pairs whose available version fails the test (or whose dependency has
no available version) are not returned. -/
theorem install_deps_mem (cmp : String → String → String → Bool)
    (deps : List DepRow) (vpkgs : List VPkgRow) (p q : String) :
    (p, q) ∈ install_deps cmp deps vpkgs ↔
      ∃ d ∈ deps, d.package = p ∧ d.dependency = q
        ∧ (d.relationship = "PKGDEP" ∨ d.relationship = "BUILDDEP")
        ∧ p ≠ q
        ∧ ∃ v ∈ vpkgs, v.name = q
            ∧ cmp v.full_version d.relop d.version = true := by
  rw [install_deps, List.mem_flatMap]
  constructor
  · rintro ⟨d, hd, hmem⟩
    by_cases hcond : ((d.relationship == "PKGDEP" || d.relationship == "BUILDDEP")
        && d.package != d.dependency) = true
    · rw [if_pos hcond] at hmem
      obtain ⟨v, hv, heq⟩ := List.mem_map.mp hmem
      obtain ⟨hvmem, hvcond⟩ := List.mem_filter.mp hv
      obtain ⟨hp, hq⟩ := Prod.mk.injEq .. ▸ heq
      simp only [Bool.and_eq_true, Bool.or_eq_true, beq_iff_eq, bne_iff_ne] at hcond hvcond
      subst hp; subst hq
      exact ⟨d, hd, rfl, rfl, hcond.1, hcond.2, v, hvmem, hvcond.1, hvcond.2⟩
    · rw [if_neg hcond] at hmem
      cases hmem
  · rintro ⟨d, hd, rfl, rfl, hrel, hne, v, hv, hvn, hcmp⟩
    refine ⟨d, hd, ?_⟩
    rw [if_pos (by simp only [Bool.and_eq_true, Bool.or_eq_true, beq_iff_eq,
      bne_iff_ne]; exact ⟨hrel, hne⟩)]
    exact List.mem_map.mpr ⟨v, List.mem_filter.mpr ⟨hv, by simp [hvn, hcmp]⟩, rfl⟩

/-! ## C5 : checksum mismatch handling in fetch_src -/

/-- Counterexample for C5 as stated: a digest mismatch is reported via
`utils.BuildProcessError` (code 201, downloader.py lines 326-331), not
via `utils.BuildResultError`.  File contents are represented by their
digest and the hash function is the identity on them. -/
theorem checksum_mismatch_kind_cex :
    (fetch_run (fun _ c => c) (some "sha256::d2") (some "d1")
      (⟨none, false⟩ : TarballState String)).2
      = .err ⟨.BuildProcessError, 201,
          "tarball checksum mismatch. fix: CHKSUM=sha256::d1"⟩
    ∧ ErrKind.BuildProcessError ≠ ErrKind.BuildResultError :=
  ⟨rfl, by decide⟩

/-- C5 amended: for every fetched tarball whose computed digest differs
from the declared expected digest, the failure is reported as a
`BuildProcessError` (code 201) naming the mismatch, the `.failed`
marker is created, and on a subsequent run the prologue of `fetch_src`
removes the artifact (it is not treated as a valid cached artifact:
it must be refetched before use). -/
theorem checksum_mismatch_invalidates {α : Type} (hashf : String → α → String)
    (spec htype hvalue : String) (content : α) (s0 : TarballState α)
    (hsplit : pySplitColons spec = [htype, hvalue])
    (hmis : hvalue ≠ hashf htype content) :
    (fetch_run hashf (some spec) (some content) s0).2
      = .err ⟨.BuildProcessError, 201,
          "tarball checksum mismatch. fix: CHKSUM=" ++ htype ++ "::"
            ++ hashf htype content⟩
    ∧ (fetch_run hashf (some spec) (some content) s0).1.failedMarker = true
    ∧ fetch_pre (fetch_run hashf (some spec) (some content) s0).1
        = (⟨none, false⟩ : TarballState α) := by
  have hbeq : (hvalue == hashf htype content) = false := by
    simpa using hmis
  by_cases h0 : s0.failedMarker
  <;> simp [fetch_run, fetch_pre, fetch_download, check_tarball, hsplit, hbeq, h0]

/-- Witness for C5 (amended): a concrete stale state with a marker from
an earlier failure, refetched contents hashing to `d1` against a
declared `d2`. -/
theorem checksum_mismatch_invalidates_witness :
    (fetch_run (fun _ c => c) (some "sha256::d2") (some "d1")
      (⟨some "stale", true⟩ : TarballState String)).2
      = .err ⟨.BuildProcessError, 201,
          "tarball checksum mismatch. fix: CHKSUM=" ++ "sha256" ++ "::" ++ "d1"⟩
    ∧ (fetch_run (fun _ c => c) (some "sha256::d2") (some "d1")
        (⟨some "stale", true⟩ : TarballState String)).1.failedMarker = true
    ∧ fetch_pre (fetch_run (fun _ c => c) (some "sha256::d2") (some "d1")
        (⟨some "stale", true⟩ : TarballState String)).1
        = (⟨none, false⟩ : TarballState String) :=
  checksum_mismatch_invalidates (fun _ c => c) "sha256::d2" "sha256" "d2" "d1"
    (⟨some "stale", true⟩ : TarballState String) (by decide) (by decide)

/-! ## C6 : find_package resolution -/

/-- C6: with the input parsed into (category, section, directory),
`find_package` returns the canonical rendered identifier and
not-a-group when the `packages` table has a matching row; on a miss it
returns a group exactly when the parsed section is the reserved marker
`'groups'` or when no section was supplied and `try_group` holds; in
every other no-match case it raises a not-found error naming the
original input verbatim. -/
theorem find_package_cases (cats : List String) (store : List PkgRow)
    (name : String) (try_group : Bool) (cat? sec? : Option String) (dir : String)
    (hp : parse_name cats name = .ok (cat?, sec?, dir)) :
    ((∃ r ∈ store, row_matches cat? sec? dir r = true) →
      ∃ r, store.find? (row_matches cat? sec? dir) = some r
        ∧ find_package cats store name try_group = .ok (render_src_name r, false))
    ∧ ((∀ r ∈ store, row_matches cat? sec? dir r = false) →
      ((sec? = some "groups" ∨ (try_group = true ∧ sec? = none)) →
        find_package cats store name try_group = .ok (dir, true))
      ∧ (sec? ≠ some "groups" → ¬(try_group = true ∧ sec? = none) →
        find_package cats store name try_group
          = .error ("source package " ++ name ++ " not found"))) := by
  constructor
  · intro hex
    cases hfind : store.find? (row_matches cat? sec? dir) with
    | none =>
      exfalso
      rcases hex with ⟨r, hr, hm⟩
      have hne := List.find?_eq_none.mp hfind r hr
      simp [hm] at hne
    | some r =>
      exact ⟨r, rfl, by simp [find_package, hp, hfind]⟩
  · intro hall
    have hnone : store.find? (row_matches cat? sec? dir) = none :=
      List.find?_eq_none.mpr (fun x hx => by simp [hall x hx])
    constructor
    · intro hgrp
      have hcond : (sec? == some "groups" || (try_group && sec?.isNone)) = true := by
        rcases hgrp with h | ⟨ht, hn⟩
        · subst h; simp
        · subst hn; subst ht; simp
      simp [find_package, hp, hnone, hcond]
    · intro hng hnf
      have hcond : (sec? == some "groups" || (try_group && sec?.isNone)) = false := by
        rw [Bool.or_eq_false_iff]
        constructor
        · simp only [beq_eq_false_iff_ne, ne_eq]
          exact hng
        · cases htg : try_group with
          | false => simp
          | true =>
            cases hsec : sec? with
            | none => exact absurd ⟨rfl, rfl⟩ (hsec ▸ htg ▸ hnf)
            | some s => simp
      simp [find_package, hp, hnone, hcond]

/-- Witness for C6: the spec scenarios — a store holding exactly
`sys-devel/llvm` resolves `llvm` to `sys-devel/llvm`, not-a-group;
and `nonexistent` with a supplied non-`groups` section raises a
not-found error naming the input verbatim. -/
theorem find_package_cases_witness :
    (∃ r, ([⟨none, "sys-devel", "llvm"⟩] : List PkgRow).find?
        (row_matches none none "llvm") = some r
      ∧ find_package ["core-", "base-", "extra-"] [⟨none, "sys-devel", "llvm"⟩]
          "llvm" true = .ok (render_src_name r, false))
    ∧ find_package ["core-", "base-", "extra-"] [⟨none, "sys-devel", "llvm"⟩]
        "sect/nonexistent" true
        = .error ("source package " ++ "sect/nonexistent" ++ " not found") := by
  constructor
  · exact (find_package_cases ["core-", "base-", "extra-"]
      [⟨none, "sys-devel", "llvm"⟩] "llvm" true none none "llvm" rfl).1
      ⟨⟨none, "sys-devel", "llvm"⟩, by decide, by decide⟩
  · exact ((find_package_cases ["core-", "base-", "extra-"]
      [⟨none, "sys-devel", "llvm"⟩] "sect/nonexistent" true none (some "sect")
      "nonexistent" rfl).2 (by decide)).2 (by decide) (by decide)

/-! ## C7 : group cycle detection in find_packages -/

/-- Counterexample for C7 as stated: a group `S` whose member list is
the bare name `S` does **not** raise a cycle error naming `S` — inside
a group body the group fallback is disabled (`try_group` is
`not group_path`), so the member `S` fails resolution with a not-found
error before `S` is ever seen as a group again. -/
theorem group_self_cycle_cex :
    find_packages 10 ["core-", "base-", "extra-"] [] [("S", ["S"])] ["S"] []
      = .error "source package S not found"
    ∧ find_packages 10 ["core-", "base-", "extra-"] [] [("S", ["S"])] ["S"] []
      ≠ .error (group_loop_msg ["S"] "S") := by
  constructor
  · rfl
  · intro h
    rw [show find_packages 10 ["core-", "base-", "extra-"] [] [("S", ["S"])]
      ["S"] [] = .error "source package S not found" from rfl] at h
    injection h with h'
    exact absurd h' (by decide)

/-- C7 amended: whenever a name resolves to a group that is already on
the current group path, `find_packages` raises the static cycle error
naming the full path (as a Python tuple) plus the repeated group,
before reading the group definition (the conclusion holds for every
group store `fs`, present or not); a group `S` whose member list
contains `groups/S` raises this cycle error naming `S`, whereas a bare
member `S` raises a not-found error instead, since group fallback is
disabled inside group bodies. -/
theorem find_packages_cycle_error (f : Nat) (cats : List String)
    (store : List PkgRow) (fs : List (String × List String))
    (n g : String) (path : List String)
    (hg : find_package cats store n path.isEmpty = .ok (g, true))
    (hmem : path.contains g = true) :
    find_packages (f + 2) cats store fs [n] path
      = .error (group_loop_msg path g) := by
  have h1 : resolve_split cats store path.isEmpty [n] = .ok ([], [g]) := by
    simp [resolve_split, hg]
  have hm : g ∈ path := by simpa using hmem
  simp [find_packages, h1, expand_groups, hm]

/-- Witness for C7 (amended): the self-referencing group written with
the reserved marker — expanding member `groups/S` of group `S` (path
`("S",)`) raises the cycle error naming the path and `S`. -/
theorem find_packages_cycle_error_witness :
    find_packages 5 ["core-", "base-", "extra-"] []
      [("S", ["groups/S"])] ["groups/S"] ["S"]
      = .error (group_loop_msg ["S"] "S") :=
  find_packages_cycle_error 3 ["core-", "base-", "extra-"] []
    [("S", ["groups/S"])] "groups/S" "S" ["S"] rfl rfl

/-! ## C8 : concatenation order in find_packages -/

/-- Counterexample for C8 as stated: with a store holding `sec/A` and
`sec/B` and a group `G = [A]`, the input `[G, B]` resolves to
`[sec/B, sec/A]` — all direct packages precede all group expansions, so
the output is not in input order (`G` comes first in the input, but its
expansion comes last). -/
theorem find_packages_order_cex :
    find_packages 10 ["core-", "base-", "extra-"]
      [⟨none, "sec", "A"⟩, ⟨none, "sec", "B"⟩] [("G", ["A"])] ["G", "B"] []
      = .ok ["sec/B", "sec/A"]
    ∧ (["sec/B", "sec/A"] : List String) ≠ ["sec/A", "sec/B"] := by
  exact ⟨rfl, by decide⟩

/-- C8 amended: for inputs that resolve entirely to direct packages,
`find_packages` returns each name's resolution in input order, one
output entry per input entry, with no duplicate suppression; when
groups occur, all direct-package resolutions come first (in input
order) followed by the group expansions (in group input order), as the
counterexample shows, rather than interleaved at input positions. -/
theorem find_packages_packages_in_order (f : Nat) (cats : List String)
    (store : List PkgRow) (fs : List (String × List String))
    (names res : List String) (path : List String)
    (h : List.Forall₂ (fun n s =>
      find_package cats store n path.isEmpty = .ok (s, false)) names res) :
    find_packages (f + 1) cats store fs names path = .ok res := by
  have hsplit : resolve_split cats store path.isEmpty names = .ok (res, []) := by
    induction h with
    | nil => rfl
    | cons h1 h2 ih => simp [resolve_split, h1, ih]
  simp [find_packages, hsplit, expand_groups]

/-- Witness for C8 (amended): the duplicated input `[B, B]` yields
`[sec/B, sec/B]` — one output per input, in order, no duplicate
suppression. -/
theorem find_packages_packages_in_order_witness :
    find_packages 5 ["core-", "base-", "extra-"]
      [⟨none, "sec", "A"⟩, ⟨none, "sec", "B"⟩] [("G", ["A"])] ["B", "B"] []
      = .ok ["sec/B", "sec/B"] :=
  find_packages_packages_in_order 4 ["core-", "base-", "extra-"]
    [⟨none, "sec", "A"⟩, ⟨none, "sec", "B"⟩] [("G", ["A"])] ["B", "B"]
    ["sec/B", "sec/B"] []
    (List.Forall₂.cons rfl (List.Forall₂.cons rfl List.Forall₂.nil))

/-! ## C9 : group member lines are not filtered -/

/-- Counterexample for C9 as stated: a group file containing a blank
line does not have the blank entry ignored — the stripped empty string
is resolved like a member name and aborts the expansion with a
not-found error instead of yielding the remaining members. -/
theorem group_blank_line_cex :
    find_packages 10 ["core-", "base-", "extra-"]
      [⟨none, "sec", "A"⟩, ⟨none, "sec", "B"⟩] [("G", ["A", "", "B"])] ["G"] []
      = .error "source package  not found"
    ∧ (Except.error "source package  not found"
        : Except String (List String)) ≠ .ok ["sec/A", "sec/B"] :=
  ⟨rfl, fun h => Except.noConfusion h⟩

/-- C9 amended: the member sequence a group expands to is the
`strip()`ped lines of its definition file, in file order, with no
blank-line or comment-line filtering: every stripped line contributes
exactly one resolution (and a blank or comment line is resolved like
any other name, typically failing with a not-found error, as the
counterexample shows). -/
theorem group_members_no_filter (f : Nat) (cats : List String)
    (store : List PkgRow) (fs : List (String × List String)) (g : String)
    (lines : List String) (path res : List String)
    (hlk : lookup_group fs g = some lines)
    (hng : path.contains g = false)
    (h : List.Forall₂ (fun n s =>
      find_package cats store n false = .ok (s, false)) (lines.map pyStrip) res) :
    expand_groups (f + 2) cats store fs path [g] = .ok res := by
  have hfp : find_packages (f + 1) cats store fs (lines.map pyStrip)
      (path ++ [g]) = .ok res := by
    apply find_packages_packages_in_order
    have hie : (path ++ [g]).isEmpty = false := by
      cases path <;> rfl
    rw [hie]
    exact h
  have hm : g ∉ path := by simpa using hng
  simp [expand_groups, hm, hlk, hfp]

/-- Witness for C9 (amended): a group file with a padded member and a
comment line — both stripped lines are resolved, in file order; the
comment line is not ignored (it resolves against a store row named
like it). -/
theorem group_members_no_filter_witness :
    expand_groups 3 ["core-", "base-", "extra-"]
      [⟨none, "sec", "A"⟩, ⟨none, "sec", "# note"⟩]
      [("G", ["A ", "# note"])] [] ["G"]
      = .ok ["sec/A", "sec/# note"] :=
  group_members_no_filter 1 ["core-", "base-", "extra-"]
    [⟨none, "sec", "A"⟩, ⟨none, "sec", "# note"⟩]
    [("G", ["A ", "# note"])] "G" ["A ", "# note"] [] ["sec/A", "sec/# note"]
    rfl rfl (List.Forall₂.cons rfl (List.Forall₂.cons rfl List.Forall₂.nil))

/-! ## C1 : the topological leveler -/

lemma insertStr_perm (a : String) : ∀ l : List String, (insertStr a l).Perm (a :: l) := by
  intro l
  induction l with
  | nil => rfl
  | cons b bs ih =>
    rw [insertStr]
    by_cases h : strLe a b
    · rw [if_pos h]
    · rw [if_neg h]
      exact (ih.cons b).trans (List.Perm.swap a b bs)

lemma sortStr_perm : ∀ l : List String, (sortStr l).Perm l := by
  intro l
  induction l with
  | nil => rfl
  | cons x xs ih =>
    exact (insertStr_perm x (sortStr xs)).trans (ih.cons x)

lemma mem_sortStr (x : String) (l : List String) : x ∈ sortStr l ↔ x ∈ l :=
  (sortStr_perm l).mem_iff

lemma mem_keys {g : Graph} {a : String} : a ∈ keys g ↔ ∃ pr, (a, pr) ∈ g := by
  rw [keys, List.mem_map]
  constructor
  · rintro ⟨⟨x, pr⟩, hm, rfl⟩
    exact ⟨pr, hm⟩
  · rintro ⟨pr, hm⟩
    exact ⟨(a, pr), hm, rfl⟩

lemma assoc_unique {g : Graph} (hnd : (keys g).Nodup) :
    ∀ {a : String} {p q : List String}, (a, p) ∈ g → (a, q) ∈ g → p = q := by
  induction g with
  | nil => intro a p q hp _; cases hp
  | cons e t ih =>
    intro a p q hp hq
    rw [keys, List.map_cons, List.nodup_cons] at hnd
    rcases List.mem_cons.mp hp with hp | hp <;> rcases List.mem_cons.mp hq with hq | hq
    · rw [← hp] at hq
      injection hq with h1 h2
      exact h2.symm
    · exfalso
      apply hnd.1
      rw [← hp]
      exact mem_keys.mpr ⟨q, hq⟩
    · exfalso
      apply hnd.1
      rw [← hq]
      exact mem_keys.mpr ⟨p, hp⟩
    · exact ih hnd.2 hp hq

lemma isReady_iff {g : Graph} {a : String} {pr : List String} :
    isReady g (a, pr) = true ↔ ∀ b ∈ pr, b ∉ keys g := by
  simp [isReady]

lemma isReady_false {g : Graph} {a : String} {pr : List String} :
    isReady g (a, pr) = false ↔ ∃ b ∈ pr, b ∈ keys g := by
  simp [isReady]

lemma edgeP_filter {g : Graph} {p : String × List String → Bool} {a b : String} :
    edgeP (g.filter p) a b → edgeP g a b := by
  rintro ⟨pr, hm, hb⟩
  exact ⟨pr, List.mem_of_mem_filter hm, hb⟩

lemma keys_filter_nodup {g : Graph} (hnd : (keys g).Nodup)
    (p : String × List String → Bool) : (keys (g.filter p)).Nodup :=
  ((List.filter_sublist (l := g)).map Prod.fst).nodup hnd

lemma keys_partition_perm (g : Graph) :
    (keys (g.filter (isReady g)) ++ keys (g.filter (fun x => !isReady g x))).Perm
      (keys g) := by
  have h := (List.filter_append_perm (isReady g) g).map Prod.fst
  rwa [List.map_append] at h

lemma levelIdx_cons (s : List String) (ls : List (List String)) (x : String) :
    levelIdx (s :: ls) x = if x ∈ s then 0 else levelIdx ls x + 1 := by
  rw [levelIdx, List.findIdx_cons]
  by_cases h : x ∈ s
  · simp [h, levelIdx]
  · simp [h, levelIdx]

/-- Every stuck non-empty remainder contains a dependency cycle: if no
node is ready, following a prerequisite inside the node set from any
node must eventually revisit a node. -/
lemma deadlock_has_cycle (g : Graph) (hne : g ≠ [])
    (hstuck : ∀ p ∈ g, isReady g p = false) :
    ∃ a, Relation.TransGen (edgeP g) a a := by
  classical
  have hsucc : ∀ a ∈ keys g, ∃ b, edgeP g a b ∧ b ∈ keys g := by
    intro a ha
    rcases mem_keys.mp ha with ⟨pr, hpr⟩
    rcases isReady_false.mp (hstuck (a, pr) hpr) with ⟨b, hbpr, hbk⟩
    exact ⟨b, ⟨pr, hpr, hbpr⟩, hbk⟩
  let f : String → String := fun a =>
    if h : ∃ b, edgeP g a b ∧ b ∈ keys g then h.choose else a
  have hf : ∀ a ∈ keys g, edgeP g a (f a) ∧ f a ∈ keys g := by
    intro a ha
    have h := hsucc a ha
    simpa only [f, dif_pos h] using h.choose_spec
  obtain ⟨x₀, hx₀⟩ : ∃ x, x ∈ keys g := by
    cases g with
    | nil => exact absurd rfl hne
    | cons e t => exact ⟨e.1, List.mem_cons_self _ _⟩
  have hin : ∀ k, f^[k] x₀ ∈ keys g := by
    intro k
    induction k with
    | zero => exact hx₀
    | succ k ihk =>
      rw [Function.iterate_succ_apply']
      exact (hf _ ihk).2
  have hchain : ∀ i j, i < j →
      Relation.TransGen (edgeP g) (f^[i] x₀) (f^[j] x₀) := by
    intro i j hij
    induction j, hij using Nat.le_induction with
    | base =>
      rw [Function.iterate_succ_apply']
      exact Relation.TransGen.single (hf _ (hin i)).1
    | succ j hij ihj =>
      rw [Function.iterate_succ_apply']
      exact ihj.tail (hf _ (hin j)).1
  obtain ⟨i, hi, j, hj, hne', heq⟩ :=
    Finset.exists_ne_map_eq_of_card_lt_of_maps_to
      (s := Finset.range ((keys g).length + 1)) (t := (keys g).toFinset)
      (by
        have := List.toFinset_card_le (keys g)
        simp only [Finset.card_range]
        omega)
      (fun i _ => List.mem_toFinset.mpr (hin i))
  rcases Nat.lt_or_ge i j with hij | hij
  · exact ⟨f^[i] x₀, heq ▸ hchain i j hij⟩
  · have hji : j < i := lt_of_le_of_ne hij (fun h => hne' h.symm)
    exact ⟨f^[j] x₀, heq ▸ hchain j i hji⟩

lemma toposort_ok_aux : ∀ (n : Nat) (g : Graph), g.length ≤ n →
    (keys g).Nodup →
    (∀ a, ¬ Relation.TransGen (edgeP g) a a) →
    ∃ ls, toposort g = .ok ls
      ∧ ls.flatten.Perm (keys g)
      ∧ ∀ a b, edgeP g a b → b ∈ keys g → levelIdx ls b < levelIdx ls a := by
  intro n
  induction n with
  | zero =>
    intro g hlen _ _
    have hg : g = [] := List.length_eq_zero.mp (Nat.le_zero.mp hlen)
    subst hg
    refine ⟨[], by rw [toposort]; rfl, by simp [keys], ?_⟩
    rintro a b ⟨pr, hm, _⟩ _
    cases hm
  | succ n ih =>
    intro g hlen hnd hac
    by_cases hg : g = []
    · subst hg
      refine ⟨[], by rw [toposort]; rfl, by simp [keys], ?_⟩
      rintro a b ⟨pr, hm, _⟩ _
      cases hm
    · by_cases hready : (g.filter (isReady g)).isEmpty
      · exfalso
        have hstuck : ∀ p ∈ g, isReady g p = false := by
          intro p hp
          have := List.filter_eq_nil_iff.mp (List.isEmpty_iff.mp hready) p hp
          simpa using this
        obtain ⟨a, ha⟩ := deadlock_has_cycle g hg hstuck
        exact hac a ha
      · have hlt : (g.filter (fun p => !isReady g p)).length < g.length := by
          rw [List.length_filter_lt_length_iff_exists]
          obtain ⟨x, hx⟩ := List.exists_mem_of_ne_nil (g.filter (isReady g))
            (fun h => by simp [h] at hready)
          exact ⟨x, List.mem_of_mem_filter hx,
            by simp [(List.mem_filter.mp hx).2]⟩
        have hndr : (keys (g.filter (fun p => !isReady g p))).Nodup :=
          keys_filter_nodup hnd _
        have hacr : ∀ a, ¬ Relation.TransGen
            (edgeP (g.filter (fun p => !isReady g p))) a a := by
          intro a ha
          exact hac a (ha.mono (fun x y h => edgeP_filter h))
        obtain ⟨ls, hls, hperm, hord⟩ :=
          ih (g.filter (fun p => !isReady g p)) (by omega) hndr hacr
        have hdisj : List.Disjoint (keys (g.filter (isReady g)))
            (keys (g.filter (fun p => !isReady g p))) := by
          have := (keys_partition_perm g).symm.nodup hnd
          exact (List.nodup_append.mp this).2.2
        refine ⟨sortStr ((g.filter (isReady g)).map Prod.fst) :: ls, ?_, ?_, ?_⟩
        · rw [toposort]
          rw [if_neg (by simpa [List.isEmpty_iff] using hg), dif_neg hready, hls]
        · rw [List.flatten_cons]
          refine ((sortStr_perm _).append hperm).trans ?_
          exact keys_partition_perm g
        · intro a b hedge hbkeys
          rcases hedge with ⟨pr, hapr, hbpr⟩
          by_cases haready : isReady g (a, pr) = true
          · exact absurd hbkeys (isReady_iff.mp haready b hbpr)
          · have harest : (a, pr) ∈ g.filter (fun p => !isReady g p) :=
              List.mem_filter.mpr ⟨hapr, by simp [haready]⟩
            have haK : a ∈ keys (g.filter (fun p => !isReady g p)) :=
              mem_keys.mpr ⟨pr, harest⟩
            have hanr : a ∉ sortStr ((g.filter (isReady g)).map Prod.fst) := by
              rw [mem_sortStr]
              exact fun hc => hdisj hc haK
            have hA : levelIdx (sortStr ((g.filter (isReady g)).map Prod.fst) :: ls) a
                = levelIdx ls a + 1 := by
              rw [levelIdx_cons, if_neg hanr]
            by_cases hbready : b ∈ keys (g.filter (isReady g))
            · have hB : levelIdx (sortStr ((g.filter (isReady g)).map Prod.fst) :: ls) b
                  = 0 := by
                rw [levelIdx_cons, if_pos
                  ((mem_sortStr b ((g.filter (isReady g)).map Prod.fst)).mpr hbready)]
              omega
            · have hbK : b ∈ keys (g.filter (fun p => !isReady g p)) := by
                have := ((keys_partition_perm g).mem_iff (a := b)).mpr hbkeys
                rcases List.mem_append.mp this with h | h
                · exact absurd h hbready
                · exact h
              have hbnr : b ∉ sortStr ((g.filter (isReady g)).map Prod.fst) := by
                rw [mem_sortStr]
                exact hbready
              have hB : levelIdx (sortStr ((g.filter (isReady g)).map Prod.fst) :: ls) b
                  = levelIdx ls b + 1 := by
                rw [levelIdx_cons, if_neg hbnr]
              have := hord a b ⟨pr, harest, hbpr⟩ hbK
              omega

/-- C1: for every acyclic node-to-prerequisite-set mapping with
distinct node keys, the topological leveler succeeds, the concatenation
of the yielded levels is a permutation of the input node set (with the
keys distinct, each node appears exactly once), and for every edge
where node `a` has prerequisite `b` inside the node set, the level
index of `b` is strictly below the level index of `a`. -/
theorem toposort_levels_correct (g : Graph) (hnd : (keys g).Nodup)
    (hac : ∀ a, ¬ Relation.TransGen (edgeP g) a a) :
    ∃ ls, toposort g = .ok ls
      ∧ ls.flatten.Perm (keys g)
      ∧ ∀ a b, edgeP g a b → b ∈ keys g → levelIdx ls b < levelIdx ls a :=
  toposort_ok_aux g.length g le_rfl hnd hac

lemma edge_g0 : ∀ x y, edgeP [("a", ["b"]), ("b", [])] x y → x = "a" ∧ y = "b" := by
  rintro x y ⟨pr, hm, hb⟩
  rcases List.mem_cons.mp hm with h | h
  · obtain ⟨hx, hpr⟩ := Prod.mk.injEq .. ▸ h
    subst hpr
    rcases List.mem_singleton.mp hb with rfl
    exact ⟨hx, rfl⟩
  · rcases List.mem_singleton.mp h with h
    obtain ⟨hx, hpr⟩ := Prod.mk.injEq .. ▸ h
    subst hpr
    cases hb

lemma acyc_g0 : ∀ a, ¬ Relation.TransGen (edgeP [("a", ["b"]), ("b", [])]) a a := by
  have htg : ∀ x y, Relation.TransGen (edgeP [("a", ["b"]), ("b", [])]) x y →
      x = "a" ∧ y = "b" := by
    intro x y h
    induction h with
    | single h => exact edge_g0 _ _ h
    | tail h1 h2 ih =>
      obtain ⟨hx, hy⟩ := ih
      obtain ⟨h2a, h2b⟩ := edge_g0 _ _ h2
      rw [hy] at h2a
      exact absurd h2a (by decide)
  intro a ha
  obtain ⟨h1, h2⟩ := htg a a ha
  rw [h1] at h2
  exact absurd h2 (by decide)

/-- Witness for C1 at the concrete acyclic mapping
`{a ↦ {b}, b ↦ ∅}`. -/
theorem toposort_levels_correct_witness :
    ∃ ls, toposort [("a", ["b"]), ("b", [])] = .ok ls
      ∧ ls.flatten.Perm (keys [("a", ["b"]), ("b", [])])
      ∧ ∀ x y, edgeP [("a", ["b"]), ("b", [])] x y →
          y ∈ keys [("a", ["b"]), ("b", [])] →
          levelIdx ls y < levelIdx ls x :=
  toposort_levels_correct [("a", ["b"]), ("b", [])] (by decide) acyc_g0

end Adbs
